import Mathlib

/-!
Verification of the cellular-automaton core of the GenerativePlayground
repository: the coordinate/index mapper and grid (src/Cells.ts), the two
rules (src/Rule110.ts and src/SandRule.ts, the Vector-based revisions),
and the simulation driver CA (the latest ECA.ts revision, with
double-buffered iteration, dirty tracking, setRule and scuffCell).

Modelling conventions:
- a Cell is represented by its integer state (the source Cell class holds
  a single number and carries no further identity);
- JavaScript numbers that hold coordinates are modelled as integers, flat
  array indices as naturals;
- a thrown exception (DimensionError, IndexOutOfBoundsError) and the
  undefined value produced by a switch without a matching case are both
  modelled by the none of Option; a rule application that completes
  normally returns some state.
-/

namespace GenPlay

/-- States of the SandStates enum in SandRule.ts (and states in Cells.ts). -/
def EMPTY : ℤ := 0

/-- Sand state of the SandStates enum. -/
def SAND : ℤ := 1

/-- Compacted sand state of the SandStates enum. -/
def COMPACTED_SAND : ℤ := 2

/-- Rock (solid wall) state of the SandStates enum. -/
def ROCK : ℤ := -1

/-- CellSpace of Cells.ts: the dimension sizes and the flat cell array
(each cell represented by its integer state). The constructor invariant
is cells.length = product of dimensionOrders. -/
structure CellSpace where
  dimensionOrders : List ℕ
  cells : List ℤ
deriving DecidableEq, Repr

/-- The indexOrders stride table computed by the CellSpace constructor:
entry i is the running product of the dimension sizes before i, so
entry 0 is 1. -/
def indexOrdersOf (dims : List ℕ) : List ℕ :=
  (List.range dims.length).map (fun i => (dims.take i).prod)

/-- CellSpace.indexOrders, as stored by the constructor in Cells.ts. -/
def CellSpace.indexOrders (cs : CellSpace) : List ℕ :=
  indexOrdersOf cs.dimensionOrders

/-- The summation loop of CellSpace.getIndex in Cells.ts:
index = sum over dim of position[dim] * indexOrders[length - 1 - dim].
The source first throws DimensionError when the position length differs
from the dimension count; every call site modelled here passes a position
of the correct length, so we model the post-check computation. -/
def getIndexD (dims : List ℕ) (position : List ℤ) : ℤ :=
  ∑ dim ∈ Finset.range position.length,
    position.getD dim 0 * ((indexOrdersOf dims).getD (position.length - 1 - dim) 0 : ℤ)

/-- CellSpace.getIndex of Cells.ts. -/
def CellSpace.getIndex (cs : CellSpace) (position : List ℤ) : ℤ :=
  getIndexD cs.dimensionOrders position

/-- The loop of CellSpace.getPosition in Cells.ts: it walks the stride
table from the most significant stride downward (hence the reversed
stride list), emitting the quotient of the remaining index by each stride
and keeping the remainder. -/
def posDigits : List ℕ → ℕ → List ℤ
  | [], _ => []
  | s :: rest, rem => ((rem / s : ℕ) : ℤ) :: posDigits rest (rem % s)

/-- The body of CellSpace.getPosition, as a function of the dimension
sizes. -/
def getPositionD (dims : List ℕ) (index : ℕ) : List ℤ :=
  posDigits (indexOrdersOf dims).reverse index

/-- CellSpace.getPosition of Cells.ts, on a natural flat index (every
call site passes an index in [0, cells.length)). -/
def CellSpace.getPosition (cs : CellSpace) (index : ℕ) : List ℤ :=
  getPositionD cs.dimensionOrders index

/-- CellSpace.getPositionIsValid of Cells.ts: false when the length
differs from the dimension count, otherwise every coordinate must be
nonnegative and below dimensionOrders[length - 1 - dim]. -/
def CellSpace.getPositionIsValid (cs : CellSpace) (position : List ℤ) : Bool :=
  if position.length ≠ cs.dimensionOrders.length then false
  else (List.range position.length).all (fun dim =>
    decide (0 ≤ position.getD dim 0) &&
    decide (position.getD dim 0 <
      (cs.dimensionOrders.getD (position.length - 1 - dim) 0 : ℤ)))

/-- CellSpace.getCellAtIndex of Cells.ts: throws IndexOutOfBoundsError
(modelled as none) when the index is negative or at least cells.length,
otherwise returns the cell state. -/
def CellSpace.getCellAtIndex (cs : CellSpace) (index : ℤ) : Option ℤ :=
  if index < 0 ∨ (cs.cells.length : ℤ) ≤ index then none
  else some (cs.cells.getD index.toNat 0)

/-- The Rule 110 lookup table of Rule110.ts (rule number 110 in binary,
01101110). -/
def rule110Lut : List ℤ := [0, 1, 1, 1, 0, 1, 1, 0]

/-- Rule110.getNeighbor of Rule110.ts: nx = position[1] + offset; out of
bounds (checked against dimensionOrders[0]) yields the boundary state 0,
otherwise the cell at getIndex(Vector(position[0], nx)). -/
def Rule110.getNeighbor (cs : CellSpace) (position : List ℤ) (offset : ℤ) : Option ℤ :=
  let nx := position.getD 1 0 + offset
  if nx < 0 ∨ (cs.dimensionOrders.getD 0 0 : ℤ) ≤ nx then some 0
  else cs.getCellAtIndex (cs.getIndex [position.getD 0 0, nx])

/-- Rule110.apply of Rule110.ts: reads the left, center and right
neighbors, packs them with shifts and bitwise or into a pattern, and
looks the pattern up in the rule table. The source computes the shifts
on JavaScript numbers; the neighbor states that occur are 0 and 1, on
which natural shift and or agree, so the pattern is computed on the
natural projections. A lookup outside the 8-entry table (which in the
source would produce undefined) is none. -/
def Rule110.apply (cs : CellSpace) (position : List ℤ) : Option ℤ := do
  let left ← Rule110.getNeighbor cs position (-1)
  let center ← Rule110.getNeighbor cs position 0
  let right ← Rule110.getNeighbor cs position 1
  let pattern := (left.toNat <<< 2) ||| (center.toNat <<< 1) ||| right.toNat
  rule110Lut.get? pattern

/-- SandRule.getNeighbor of SandRule.ts: ny = position[0] + dy and
nx = position[1] + dx; out of bounds (nx against dimensionOrders[0],
ny against dimensionOrders[1]) yields the solid boundary state ROCK,
otherwise the cell at getIndex(Vector(ny, nx)). -/
def SandRule.getNeighbor (cs : CellSpace) (position : List ℤ) (dy dx : ℤ) : Option ℤ :=
  let ny := position.getD 0 0 + dy
  let nx := position.getD 1 0 + dx
  if nx < 0 ∨ (cs.dimensionOrders.getD 0 0 : ℤ) ≤ nx ∨
     ny < 0 ∨ (cs.dimensionOrders.getD 1 0 : ℤ) ≤ ny then some ROCK
  else cs.getCellAtIndex (cs.getIndex [ny, nx])

/-- SandRule.apply of SandRule.ts: reads the nine Moore neighbors, then
switches on the state of the cell itself; inside each case the first
matching condition wins. The test of the word down alone in the third
SAND condition is JavaScript truthiness, which for the numeric states
means down is not 0. A self state outside the enum falls through the
switch (undefined in the source), modelled as none. -/
def SandRule.apply (cs : CellSpace) (position : List ℤ) : Option ℤ := do
  let self ← SandRule.getNeighbor cs position 0 0
  let up ← SandRule.getNeighbor cs position (-1) 0
  let upLeft ← SandRule.getNeighbor cs position (-1) (-1)
  let upRight ← SandRule.getNeighbor cs position (-1) 1
  let left ← SandRule.getNeighbor cs position 0 (-1)
  let right ← SandRule.getNeighbor cs position 0 1
  let down ← SandRule.getNeighbor cs position 1 0
  let downLeft ← SandRule.getNeighbor cs position 1 (-1)
  let downRight ← SandRule.getNeighbor cs position 1 1
  if self = EMPTY then
    if up = SAND then some SAND
    else if upRight = SAND ∧ right ≠ EMPTY ∧ up = EMPTY then some SAND
    else if left = COMPACTED_SAND ∧ upLeft = SAND ∧ downLeft ≠ EMPTY then some SAND
    else some EMPTY
  else if self = SAND then
    if down = EMPTY then some EMPTY
    else if downLeft = EMPTY ∧ left = EMPTY then some EMPTY
    else if down ≠ 0 ∧ (up = SAND ∨ up = COMPACTED_SAND) then some COMPACTED_SAND
    else if down = COMPACTED_SAND ∧ right = EMPTY ∧ downRight = EMPTY then some EMPTY
    else some SAND
  else if self = COMPACTED_SAND then
    if down = EMPTY then some SAND
    else if down = SAND then some SAND
    else if up = EMPTY ∨ up = ROCK then some SAND
    else some COMPACTED_SAND
  else if self = ROCK then some ROCK
  else none

/-- NeighborhoodType enum of CARule.ts. -/
inductive NeighborhoodType where
  | elementary
  | moore
deriving DecidableEq, Repr

/-- The two rule variants registered in the rule registry of ECA.ts. -/
inductive Rule where
  | rule110
  | sand
deriving DecidableEq, Repr

/-- The neighborhoodType field each rule variant declares. -/
def Rule.neighborhoodType : Rule → NeighborhoodType
  | .rule110 => .elementary
  | .sand => .moore

/-- Dispatch of the polymorphic apply method over the rule variants. -/
def Rule.apply : Rule → CellSpace → List ℤ → Option ℤ
  | .rule110 => Rule110.apply
  | .sand => SandRule.apply

/-- The CA driver of the latest ECA.ts revision. The two reusable state
buffers are an allocation optimization whose contents are fully
overwritten on every iterate call and never otherwise read, so they are
not part of the observable state modelled here; the dirty rectangle set
holds the indices of changed cells. -/
structure CA where
  cellSpace : CellSpace
  currentRule : Rule
  currentNeighborhoodType : NeighborhoodType
  dirtyRects : Finset ℕ
deriving DecidableEq

/-- CA.setRule of ECA.ts: installs the rule only when its neighborhood
type matches the current one; otherwise it logs an incompatible-rule
error and leaves every field of the driver unchanged. The boolean of the
returned pair records whether the error branch was taken. -/
def CA.setRule (ca : CA) (rule : Rule) : CA × Bool :=
  if rule.neighborhoodType = ca.currentNeighborhoodType then
    ({ ca with currentRule := rule }, false)
  else
    (ca, true)

/-- CA.markDirty of ECA.ts. -/
def CA.markDirty (ca : CA) (index : ℕ) : CA :=
  { ca with dirtyRects := insert index ca.dirtyRects }

/-- CA.clearDirty of ECA.ts. -/
def CA.clearDirty (ca : CA) : CA :=
  { ca with dirtyRects := ∅ }

/-- CA.getNextState of ECA.ts: applies the current rule to the current
grid at the position of the given flat index. -/
def CA.getNextState (ca : CA) (index : ℕ) : Option ℤ :=
  ca.currentRule.apply ca.cellSpace (ca.cellSpace.getPosition index)

/-- CA.scuffCell of ECA.ts (the paint operation): returns unchanged on an
invalid position (the source only logs a warning); on a valid position it
writes the state directly when it differs from the stored one and marks
that index dirty, otherwise it leaves everything unchanged. -/
def CA.scuffCell (ca : CA) (position : List ℤ) (state : ℤ) : CA :=
  if ca.cellSpace.getPositionIsValid position = false then ca
  else
    let index := (ca.cellSpace.getIndex position).toNat
    if ca.cellSpace.cells.getD index 0 ≠ state then
      let written : CA :=
        { ca with cellSpace :=
            { ca.cellSpace with cells := ca.cellSpace.cells.set index state } }
      written.markDirty index
    else ca

/-- Sequencing of a list of optional values: none as soon as one entry is
none (an exception thrown inside the first iterate loop aborts the whole
generation), otherwise the list of values. -/
def optList : List (Option ℤ) → Option (List ℤ)
  | [] => some []
  | none :: _ => none
  | some x :: rest => (optList rest).map (x :: ·)

/-- CA.iterate of ECA.ts, one generation. First loop: every next state is
computed with getNextState from the grid as it is before the step (the
source performs no write to the cells during this loop). Second loop: an
index whose computed state differs from the stored one gets the new cell
and is marked dirty; equal states leave the cell untouched. The final
buffer swap has no observable effect and is not modelled. -/
def CA.iterate (ca : CA) : Option CA :=
  let n := ca.cellSpace.cells.length
  match optList ((List.range n).map ca.getNextState) with
  | none => none
  | some next =>
    some { ca with
      cellSpace :=
        { ca.cellSpace with
          cells := (List.range n).map (fun i =>
            if ca.cellSpace.cells.getD i 0 ≠ next.getD i 0 then next.getD i 0
            else ca.cellSpace.cells.getD i 0) },
      dirtyRects := ca.dirtyRects ∪ (Finset.range n).filter
        (fun i => ca.cellSpace.cells.getD i 0 ≠ next.getD i 0) }

example : getIndexD [8, 2] [1, 3] = 11 := by decide
example : CellSpace.getPosition ⟨[8, 2], []⟩ 11 = [1, 3] := by decide
example : CellSpace.getPositionIsValid ⟨[8, 2], []⟩ [1, 3] = true := by decide
example : CellSpace.getPositionIsValid ⟨[8, 2], []⟩ [2, 3] = false := by decide
example : Rule110.apply ⟨[5, 1], [0, 1, 0, 1, 0]⟩ [0, 0] = some 1 := by decide
example : Rule110.getNeighbor ⟨[5, 1], [0, 1, 0, 1, 0]⟩ [0, 0] (-1) = some 0 := by decide
example : SandRule.apply ⟨[1, 2], [1, 0]⟩ [0, 0] = some 0 := by decide
example : SandRule.apply ⟨[1, 2], [1, 0]⟩ [1, 0] = some 1 := by decide
example :
    (CA.iterate ⟨⟨[1, 2], [1, 0]⟩, .sand, .moore, ∅⟩).map (fun c => c.cellSpace.cells) =
      some [0, 1] := by decide

/-! Structural lemmas about the mapper. -/

lemma indexOrdersOf_length (dims : List ℕ) :
    (indexOrdersOf dims).length = dims.length := by
  simp [indexOrdersOf]

lemma indexOrdersOf_append (ds : List ℕ) (d : ℕ) :
    indexOrdersOf (ds ++ [d]) = indexOrdersOf ds ++ [ds.prod] := by
  unfold indexOrdersOf
  rw [List.length_append, List.length_singleton, List.range_succ, List.map_append]
  congr 1
  · apply List.map_congr_left
    intro i hi
    rw [List.mem_range] at hi
    rw [List.take_append_of_le_length (Nat.le_of_lt hi)]
  · rw [List.map_singleton, List.take_left]

lemma posDigits_length (l : List ℕ) (rem : ℕ) :
    (posDigits l rem).length = l.length := by
  induction l generalizing rem with
  | nil => rfl
  | cons s rest ih => simp [posDigits, ih]

lemma getPositionD_length (dims : List ℕ) (i : ℕ) :
    (getPositionD dims i).length = dims.length := by
  rw [getPositionD, posDigits_length, List.length_reverse, indexOrdersOf_length]

lemma getPositionD_append (ds : List ℕ) (d : ℕ) (i : ℕ) :
    getPositionD (ds ++ [d]) i =
      ((i / ds.prod : ℕ) : ℤ) :: getPositionD ds (i % ds.prod) := by
  unfold getPositionD
  rw [indexOrdersOf_append, List.reverse_append]
  rfl

lemma getIndexD_nil (dims : List ℕ) : getIndexD dims [] = 0 := by
  simp [getIndexD]

lemma getIndexD_append (ds : List ℕ) (d : ℕ) (p0 : ℤ) (ps : List ℤ)
    (hlen : ps.length = ds.length) :
    getIndexD (ds ++ [d]) (p0 :: ps) = p0 * ds.prod + getIndexD ds ps := by
  have hiolen : (indexOrdersOf ds).length = ds.length := indexOrdersOf_length ds
  unfold getIndexD
  rw [List.length_cons, indexOrdersOf_append, Finset.sum_range_succ']
  have h0 : (p0 :: ps).getD 0 0 * ((indexOrdersOf ds ++ [ds.prod]).getD
      (ps.length + 1 - 1 - 0) 0 : ℤ) = p0 * ds.prod := by
    have : (indexOrdersOf ds ++ [ds.prod]).getD (ps.length + 1 - 1 - 0) 0 = ds.prod := by
      have hidx : ps.length + 1 - 1 - 0 = ps.length := by omega
      rw [hidx, List.getD_append_right _ _ _ _
        (by omega : (indexOrdersOf ds).length ≤ ps.length)]
      simp [hiolen, hlen]
    rw [this]
    rfl
  rw [h0, add_comm]
  congr 1
  apply Finset.sum_congr rfl
  intro j hj
  rw [Finset.mem_range] at hj
  have h1 : (p0 :: ps).getD (j + 1) 0 = ps.getD j 0 := rfl
  have h2 : ps.length + 1 - 1 - (j + 1) = ps.length - 1 - j := by omega
  have h3 : ps.length - 1 - j < (indexOrdersOf ds).length := by omega
  rw [h1, h2, List.getD_append _ _ _ _ h3]

/-- The per-axis coordinate condition checked by getPositionIsValid:
every coordinate is nonnegative and below the dimension size under the
reversed-axis correspondence. -/
def ValidCoords (ds : List ℕ) (pos : List ℤ) : Prop :=
  ∀ dim < pos.length, 0 ≤ pos.getD dim 0 ∧
    pos.getD dim 0 < (ds.getD (pos.length - 1 - dim) 0 : ℤ)

lemma validCoords_head {ds : List ℕ} {d : ℕ} {p0 : ℤ} {ps : List ℤ}
    (hlen : ps.length = ds.length)
    (h : ValidCoords (ds ++ [d]) (p0 :: ps)) : 0 ≤ p0 ∧ p0 < (d : ℤ) := by
  have h0 := h 0 (by simp)
  simp only [List.getD_cons_zero, List.length_cons] at h0
  have hidx : ps.length + 1 - 1 - 0 = ps.length := by omega
  rw [hidx] at h0
  have hgd : (ds ++ [d]).getD ps.length 0 = d := by
    rw [List.getD_append_right _ _ _ _ (by omega)]
    simp [hlen]
  rwa [hgd] at h0

lemma validCoords_tail {ds : List ℕ} {d : ℕ} {p0 : ℤ} {ps : List ℤ}
    (hlen : ps.length = ds.length)
    (h : ValidCoords (ds ++ [d]) (p0 :: ps)) : ValidCoords ds ps := by
  intro j hj
  have hx := h (j + 1) (by simp [Nat.succ_lt_succ hj])
  simp only [List.getD_cons_succ, List.length_cons] at hx
  have hidx : ps.length + 1 - 1 - (j + 1) = ps.length - 1 - j := by omega
  rw [hidx] at hx
  rwa [List.getD_append _ _ _ _ (by omega : ps.length - 1 - j < ds.length)] at hx

lemma getIndexD_bounds (ds : List ℕ) (pos : List ℤ)
    (hlen : pos.length = ds.length) (hvalid : ValidCoords ds pos) :
    0 ≤ getIndexD ds pos ∧ getIndexD ds pos < (ds.prod : ℤ) := by
  induction ds using List.reverseRecOn generalizing pos with
  | nil =>
    have hp : pos = [] := List.length_eq_zero.mp (by simpa using hlen)
    subst hp
    simp [getIndexD_nil]
  | append_singleton ds d ih =>
    cases pos with
    | nil => simp at hlen
    | cons p0 ps =>
      have hlen' : ps.length = ds.length := by
        simpa using hlen
      obtain ⟨hp0, hp0d⟩ := validCoords_head hlen' hvalid
      have hps := validCoords_tail hlen' hvalid
      obtain ⟨hm0, hmP⟩ := ih ps hlen' hps
      rw [getIndexD_append _ _ _ _ hlen', List.prod_append, List.prod_singleton]
      have hPnn : (0 : ℤ) ≤ (ds.prod : ℕ) := by positivity
      have h1 : p0 + 1 ≤ (d : ℤ) := Int.add_one_le_iff.mpr hp0d
      have h2 : (p0 + 1) * (ds.prod : ℤ) ≤ (d : ℤ) * (ds.prod : ℤ) :=
        mul_le_mul_of_nonneg_right h1 hPnn
      constructor
      · have : 0 ≤ p0 * (ds.prod : ℤ) := mul_nonneg hp0 hPnn
        linarith
      · rw [Nat.cast_mul]
        calc p0 * ((ds.prod : ℕ) : ℤ) + getIndexD ds ps
            < (p0 + 1) * ((ds.prod : ℕ) : ℤ) := by nlinarith [hmP]
          _ ≤ (d : ℤ) * ((ds.prod : ℕ) : ℤ) := h2
          _ = ((ds.prod : ℕ) : ℤ) * (d : ℤ) := mul_comm _ _

lemma posIndex_roundtrip (ds : List ℕ) (pos : List ℤ)
    (hds : ∀ x ∈ ds, 1 ≤ x) (hlen : pos.length = ds.length)
    (hvalid : ValidCoords ds pos) :
    getPositionD ds (getIndexD ds pos).toNat = pos := by
  induction ds using List.reverseRecOn generalizing pos with
  | nil =>
    have hp : pos = [] := List.length_eq_zero.mp (by simpa using hlen)
    subst hp
    simp [getIndexD_nil, getPositionD, indexOrdersOf, posDigits]
  | append_singleton ds d ih =>
    cases pos with
    | nil => simp at hlen
    | cons p0 ps =>
      have hlen' : ps.length = ds.length := by simpa using hlen
      have hds' : ∀ x ∈ ds, 1 ≤ x := fun x hx => hds x (by simp [hx])
      obtain ⟨hp0, hp0d⟩ := validCoords_head hlen' hvalid
      have hps := validCoords_tail hlen' hvalid
      obtain ⟨hm0, hmP⟩ := getIndexD_bounds ds ps hlen' hps
      have hP : 0 < ds.prod :=
        List.prod_pos (fun x hx => lt_of_lt_of_le Nat.zero_lt_one (hds' x hx))
      rw [getIndexD_append _ _ _ _ hlen', getPositionD_append]
      have hpa : ((p0.toNat : ℕ) : ℤ) = p0 := Int.toNat_of_nonneg hp0
      have hmb : ((getIndexD ds ps).toNat : ℤ) = getIndexD ds ps :=
        Int.toNat_of_nonneg hm0
      have hN : (p0 * (ds.prod : ℤ) + getIndexD ds ps).toNat =
          p0.toNat * ds.prod + (getIndexD ds ps).toNat := by
        have hcast : p0 * (ds.prod : ℤ) + getIndexD ds ps =
            ((p0.toNat * ds.prod + (getIndexD ds ps).toNat : ℕ) : ℤ) := by
          push_cast [hpa, hmb]
          ring
        rw [hcast, Int.toNat_natCast]
      have hmlt : (getIndexD ds ps).toNat < ds.prod := by omega
      have hdiv : (p0.toNat * ds.prod + (getIndexD ds ps).toNat) / ds.prod = p0.toNat := by
        rw [Nat.add_comm, Nat.add_mul_div_right _ _ hP, Nat.div_eq_of_lt hmlt,
          Nat.zero_add]
      have hmod : (p0.toNat * ds.prod + (getIndexD ds ps).toNat) % ds.prod =
          (getIndexD ds ps).toNat := by
        rw [Nat.add_comm, Nat.add_mul_mod_self_right, Nat.mod_eq_of_lt hmlt]
      rw [hN, hdiv, hmod, hpa]
      congr 1
      exact ih ps hds' hlen' hps

lemma indexPos_roundtrip (ds : List ℕ) (hds : ∀ x ∈ ds, 1 ≤ x) (i : ℕ)
    (hi : i < ds.prod) :
    getIndexD ds (getPositionD ds i) = (i : ℤ) := by
  induction ds using List.reverseRecOn generalizing i with
  | nil =>
    have hp : i = 0 := by simpa using Nat.lt_one_iff.mp (by simpa using hi)
    subst hp
    simp [getIndexD_nil, getPositionD, indexOrdersOf, posDigits]
  | append_singleton ds d ih =>
    have hds' : ∀ x ∈ ds, 1 ≤ x := fun x hx => hds x (by simp [hx])
    have hP : 0 < ds.prod :=
      List.prod_pos (fun x hx => lt_of_lt_of_le Nat.zero_lt_one (hds' x hx))
    rw [getPositionD_append,
      getIndexD_append _ _ _ _ (getPositionD_length ds (i % ds.prod)),
      ih hds' (i % ds.prod) (Nat.mod_lt _ hP)]
    rw [mul_comm]
    exact_mod_cast Nat.div_add_mod i ds.prod

lemma getPositionIsValid_iff (cs : CellSpace) (pos : List ℤ) :
    cs.getPositionIsValid pos = true ↔
      pos.length = cs.dimensionOrders.length ∧ ValidCoords cs.dimensionOrders pos := by
  unfold CellSpace.getPositionIsValid ValidCoords
  by_cases hl : pos.length = cs.dimensionOrders.length
  · simp [hl, List.all_eq_true, List.mem_range]
  · simp [hl]

/-- C1: for every grid with all axis sizes at least 1, getIndex and
getPosition are mutual inverses: getPosition of getIndex returns every
valid position (each coordinate within bounds under the reversed-axis
correspondence), and getIndex of getPosition returns every flat index
in [0, cells.length), where cells.length is the product of the dimension
sizes as established by the CellSpace constructor. -/
theorem mapper_inverse_law (cs : CellSpace)
    (hdims : ∀ x ∈ cs.dimensionOrders, 1 ≤ x)
    (hcells : cs.cells.length = cs.dimensionOrders.prod) :
    (∀ position, cs.getPositionIsValid position = true →
      cs.getPosition (cs.getIndex position).toNat = position) ∧
    (∀ index, index < cs.cells.length →
      cs.getIndex (cs.getPosition index) = (index : ℤ)) := by
  constructor
  · intro pos hv
    rw [getPositionIsValid_iff] at hv
    simp only [CellSpace.getPosition, CellSpace.getIndex]
    exact posIndex_roundtrip _ _ hdims hv.1 hv.2
  · intro i hi
    simp only [CellSpace.getPosition, CellSpace.getIndex]
    exact indexPos_roundtrip _ hdims i (hcells ▸ hi)

/-- Concrete instance of the mapper inverse law on a 3 by 2 grid. -/
theorem mapper_inverse_law_witness :
    CellSpace.getPosition ⟨[3, 2], [0, 0, 0, 0, 0, 0]⟩
        ((CellSpace.getIndex ⟨[3, 2], [0, 0, 0, 0, 0, 0]⟩ [1, 2]).toNat) = [1, 2] ∧
    CellSpace.getIndex ⟨[3, 2], [0, 0, 0, 0, 0, 0]⟩
        (CellSpace.getPosition ⟨[3, 2], [0, 0, 0, 0, 0, 0]⟩ 4) = (4 : ℤ) :=
  ⟨(mapper_inverse_law ⟨[3, 2], [0, 0, 0, 0, 0, 0]⟩ (by decide) (by decide)).1
      [1, 2] (by decide),
   (mapper_inverse_law ⟨[3, 2], [0, 0, 0, 0, 0, 0]⟩ (by decide) (by decide)).2
      4 (by decide)⟩

/-! Lemmas about the sequencing of the first iterate loop. -/

lemma optList_eq_map_some : ∀ {l : List (Option ℤ)} {v : List ℤ},
    optList l = some v → l = v.map some := by
  intro l
  induction l with
  | nil =>
    intro v h
    simp only [optList, Option.some.injEq] at h
    subst h
    rfl
  | cons x rest ih =>
    intro v h
    cases x with
    | none => exact absurd h (by simp [optList])
    | some a =>
      simp only [optList] at h
      obtain ⟨w, hw, hv⟩ := Option.map_eq_some'.mp h
      subst hv
      rw [List.map_cons, ← ih hw]

lemma optList_of_all_some : ∀ {l : List (Option ℤ)},
    (∀ x ∈ l, x ≠ none) → ∃ v, optList l = some v := by
  intro l
  induction l with
  | nil => exact fun _ => ⟨[], rfl⟩
  | cons x rest ih =>
    intro h
    cases x with
    | none => exact absurd rfl (h none (by simp))
    | some a =>
      obtain ⟨w, hw⟩ := ih (fun y hy => h y (List.mem_cons_of_mem _ hy))
      exact ⟨a :: w, by simp [optList, hw]⟩

lemma range_map_eq_map_some {f : ℕ → Option ℤ} {n : ℕ} {v : List ℤ}
    (h : (List.range n).map f = v.map some) :
    v.length = n ∧ ∀ i < n, f i = some (v.getD i 0) := by
  have hlen : v.length = n := by
    have hc := congrArg List.length h
    simpa using hc.symm
  refine ⟨hlen, ?_⟩
  intro i hi
  have h2 := congrArg (fun l => l.get? i) h
  simp only [List.get?_map] at h2
  rw [List.get?_range hi] at h2
  cases hv : v.get? i with
  | none => rw [hv] at h2; simp at h2
  | some w =>
    rw [hv] at h2
    simp only [Option.map_some'] at h2
    rw [List.getD_eq_getD_get?, hv]
    exact Option.some.inj h2

/-- The observable effect of one iterate call, when the generation
completes: the next-state list, the pointwise cell update and the dirty
additions, with the rule and neighborhood fields untouched. -/
lemma iterate_extract (ca ca' : CA) (h : ca.iterate = some ca') :
    ∃ next,
      optList ((List.range ca.cellSpace.cells.length).map ca.getNextState) = some next ∧
      ca'.cellSpace.cells = (List.range ca.cellSpace.cells.length).map (fun j =>
        if ca.cellSpace.cells.getD j 0 ≠ next.getD j 0 then next.getD j 0
        else ca.cellSpace.cells.getD j 0) ∧
      ca'.dirtyRects = ca.dirtyRects ∪ (Finset.range ca.cellSpace.cells.length).filter
        (fun j => ca.cellSpace.cells.getD j 0 ≠ next.getD j 0) ∧
      ca'.currentRule = ca.currentRule ∧
      ca'.currentNeighborhoodType = ca.currentNeighborhoodType ∧
      ca'.cellSpace.dimensionOrders = ca.cellSpace.dimensionOrders := by
  simp only [CA.iterate] at h
  cases hopt : optList ((List.range ca.cellSpace.cells.length).map ca.getNextState) with
  | none => rw [hopt] at h; exact absurd h (by simp)
  | some next =>
    rw [hopt] at h
    refine ⟨next, rfl, ?_⟩
    have hca := (Option.some.inj h).symm
    subst hca
    exact ⟨rfl, rfl, rfl, rfl, rfl⟩

lemma iterate_cells_getD (ca : CA) (next : List ℤ) (cells : List ℤ)
    (hcells : cells = (List.range ca.cellSpace.cells.length).map (fun j =>
      if ca.cellSpace.cells.getD j 0 ≠ next.getD j 0 then next.getD j 0
      else ca.cellSpace.cells.getD j 0))
    (i : ℕ) (hi : i < ca.cellSpace.cells.length) :
    cells.getD i 0 = next.getD i 0 := by
  subst hcells
  rw [List.getD_eq_getD_get?, List.get?_map, List.get?_range hi]
  by_cases hc : ca.cellSpace.cells.getD i 0 ≠ next.getD i 0
  · simp [hc]
  · push_neg at hc
    simp [hc]

/-- C2: during one generation, every written cell value is the active
rule applied to the pre-step grid: for every flat index i below
cells.length, getNextState evaluated on the driver as it was before the
step returns exactly the state stored at i afterwards, so no freshly
computed state can influence any neighbor read of the same generation. -/
theorem step_uses_prestep_snapshot (ca ca' : CA) (h : ca.iterate = some ca') :
    ∀ i < ca.cellSpace.cells.length,
      ca.getNextState i = some (ca'.cellSpace.cells.getD i 0) := by
  intro i hi
  obtain ⟨next, hopt, hcells, _⟩ := iterate_extract ca ca' h
  rw [iterate_cells_getD ca next _ hcells i hi]
  obtain ⟨_, hpt⟩ := range_map_eq_map_some (optList_eq_map_some hopt)
  exact hpt i hi

/-- Concrete instance of the snapshot law: one Rule 110 generation on the
row 1,0,1 writes cell 1 from the pre-step grid. -/
theorem step_uses_prestep_snapshot_witness :
    CA.getNextState ⟨⟨[3, 1], [1, 0, 1]⟩, .rule110, .elementary, ∅⟩ 1 = some 1 := by
  have h := step_uses_prestep_snapshot
    ⟨⟨[3, 1], [1, 0, 1]⟩, .rule110, .elementary, ∅⟩
    ⟨⟨[3, 1], [1, 1, 1]⟩, .rule110, .elementary, {1}⟩
    (by decide) 1 (by decide)
  simpa using h

/-- C7: starting from an empty dirty set, one iterate call leaves the
dirty set holding exactly the indices whose stored state changed across
the generation; in particular a generation that changes nothing leaves
the dirty set empty. -/
theorem dirty_set_exact (ca ca' : CA) (hd : ca.dirtyRects = ∅)
    (h : ca.iterate = some ca') :
    ca'.dirtyRects = (Finset.range ca.cellSpace.cells.length).filter
      (fun i => ca.cellSpace.cells.getD i 0 ≠ ca'.cellSpace.cells.getD i 0) := by
  obtain ⟨next, hopt, hcells, hdirty, _⟩ := iterate_extract ca ca' h
  rw [hdirty, hd, Finset.empty_union]
  apply Finset.filter_congr
  intro i hi
  rw [Finset.mem_range] at hi
  rw [iterate_cells_getD ca next _ hcells i hi]

/-- Concrete instance of exact dirty tracking: the Rule 110 step on the
row 1,0,1 changes only cell 1, and the dirty set is exactly that. -/
theorem dirty_set_exact_witness :
    (⟨⟨[3, 1], [1, 1, 1]⟩, .rule110, .elementary, {1}⟩ : CA).dirtyRects =
      (Finset.range 3).filter (fun i =>
        ([1, 0, 1] : List ℤ).getD i 0 ≠ ([1, 1, 1] : List ℤ).getD i 0) := by
  have h := dirty_set_exact ⟨⟨[3, 1], [1, 0, 1]⟩, .rule110, .elementary, ∅⟩
    ⟨⟨[3, 1], [1, 1, 1]⟩, .rule110, .elementary, {1}⟩ rfl (by decide)
  exact h

/-- C8: setRule with a rule whose declared neighborhood type differs from
the current one reports the incompatibility and leaves every field of the
driver unchanged; with a matching type it installs the rule, changes
nothing else and reports no error. -/
theorem set_rule_guard (ca : CA) (rule : Rule) :
    (rule.neighborhoodType ≠ ca.currentNeighborhoodType →
      (ca.setRule rule).1 = ca ∧ (ca.setRule rule).2 = true) ∧
    (rule.neighborhoodType = ca.currentNeighborhoodType →
      (ca.setRule rule).1 = { ca with currentRule := rule } ∧
      (ca.setRule rule).2 = false) := by
  constructor
  · intro hne
    simp [CA.setRule, hne]
  · intro heq
    simp [CA.setRule, heq]

/-- Concrete instance of the rejected rule switch: installing Rule 110 on
a Moore-configured driver is a no-op that reports the error. -/
theorem set_rule_guard_witness :
    (CA.setRule ⟨⟨[1, 2], [1, 0]⟩, .sand, .moore, ∅⟩ .rule110).1 =
      ⟨⟨[1, 2], [1, 0]⟩, .sand, .moore, ∅⟩ ∧
    (CA.setRule ⟨⟨[1, 2], [1, 0]⟩, .sand, .moore, ∅⟩ .rule110).2 = true :=
  (set_rule_guard ⟨⟨[1, 2], [1, 0]⟩, .sand, .moore, ∅⟩ .rule110).1 (by decide)

/-- C9: scuffCell (paint) on an invalid position returns the driver
completely unchanged without raising any error; on a valid position it
writes the state directly without consulting the rule, and records the
index dirty exactly when the written state differs from the stored one. -/
theorem paint_semantics (ca : CA) (position : List ℤ) (state : ℤ) :
    (ca.cellSpace.getPositionIsValid position = false →
      ca.scuffCell position state = ca) ∧
    (ca.cellSpace.getPositionIsValid position = true →
      (ca.scuffCell position state).cellSpace.cells =
        (if ca.cellSpace.cells.getD (ca.cellSpace.getIndex position).toNat 0 ≠ state
         then ca.cellSpace.cells.set (ca.cellSpace.getIndex position).toNat state
         else ca.cellSpace.cells) ∧
      (ca.scuffCell position state).dirtyRects =
        (if ca.cellSpace.cells.getD (ca.cellSpace.getIndex position).toNat 0 ≠ state
         then insert (ca.cellSpace.getIndex position).toNat ca.dirtyRects
         else ca.dirtyRects) ∧
      (ca.scuffCell position state).currentRule = ca.currentRule) := by
  constructor
  · intro hv
    simp [CA.scuffCell, hv]
  · intro hv
    have hv' : ¬ ca.cellSpace.getPositionIsValid position = false := by simp [hv]
    simp only [CA.scuffCell]
    rw [if_neg hv']
    by_cases hc : ca.cellSpace.cells.getD (ca.cellSpace.getIndex position).toNat 0 ≠ state
    · simp only [if_pos hc]
      exact ⟨rfl, rfl, rfl⟩
    · simp only [if_neg hc]
      refine ⟨?_, ?_, ?_⟩ <;> first | rfl | trivial

/-- Concrete instance of the paint no-op: painting at the out-of-range
position 5,5 leaves the driver exactly as it was. -/
theorem paint_semantics_witness :
    CA.scuffCell ⟨⟨[1, 2], [1, 0]⟩, .sand, .moore, ∅⟩ [5, 5] 1 =
      ⟨⟨[1, 2], [1, 0]⟩, .sand, .moore, ∅⟩ :=
  (paint_semantics ⟨⟨[1, 2], [1, 0]⟩, .sand, .moore, ∅⟩ [5, 5] 1).1 (by decide)

/-- C3: Rule110.apply is exactly the 8-entry table 0,1,1,1,0,1,1,0
indexed by pattern = left*4 + center*2 + right: for every combination of
neighbor states in 0,1 the bitwise packing of the source coincides with
that linear pattern; in particular neighbors 1,1,0 give 1 and neighbors
0,0,0 give 0. -/
theorem rule110_table_fidelity (cs : CellSpace) (position : List ℤ) (l c r : ℤ)
    (hl : Rule110.getNeighbor cs position (-1) = some l)
    (hc : Rule110.getNeighbor cs position 0 = some c)
    (hr : Rule110.getNeighbor cs position 1 = some r)
    (hl01 : l = 0 ∨ l = 1) (hc01 : c = 0 ∨ c = 1) (hr01 : r = 0 ∨ r = 1) :
    Rule110.apply cs position = rule110Lut.get? (l * 4 + c * 2 + r).toNat ∧
    (l = 1 ∧ c = 1 ∧ r = 0 → Rule110.apply cs position = some 1) ∧
    (l = 0 ∧ c = 0 ∧ r = 0 → Rule110.apply cs position = some 0) := by
  have happ : Rule110.apply cs position =
      rule110Lut.get? ((l.toNat <<< 2) ||| (c.toNat <<< 1) ||| r.toNat) := by
    simp [Rule110.apply, hl, hc, hr]
  rcases hl01 with rfl | rfl <;> rcases hc01 with rfl | rfl <;>
    rcases hr01 with rfl | rfl <;>
    refine ⟨?_, fun hx => ?_, fun hx => ?_⟩ <;>
    first
      | (rw [happ]; decide)
      | simp at hx

/-- Concrete instance of the table fidelity: neighbors 1,1,0 produce 1. -/
theorem rule110_table_fidelity_witness :
    Rule110.apply ⟨[3, 1], [1, 1, 0]⟩ [0, 1] = some 1 :=
  (rule110_table_fidelity ⟨[3, 1], [1, 1, 0]⟩ [0, 1] 1 1 0 (by decide) (by decide)
    (by decide) (Or.inr rfl) (Or.inr rfl) (Or.inl rfl)).2.1 ⟨rfl, rfl, rfl⟩

/-- C4: for the elementary neighborhood as resolved by the active rule,
every out-of-bounds offset yields the fixed boundary state 0; in
particular on the width-5 row 0,1,0,1,0 the leftmost cell is evaluated
with a synthetic left neighbor of state 0 and steps by the table entry
for pattern 0,0,1. -/
theorem rule110_boundary_zero :
    (∀ (cs : CellSpace) (position : List ℤ) (offset : ℤ),
      (position.getD 1 0 + offset < 0 ∨
        (cs.dimensionOrders.getD 0 0 : ℤ) ≤ position.getD 1 0 + offset) →
      Rule110.getNeighbor cs position offset = some 0) ∧
    Rule110.getNeighbor ⟨[5, 1], [0, 1, 0, 1, 0]⟩ [0, 0] (-1) = some 0 ∧
    Rule110.apply ⟨[5, 1], [0, 1, 0, 1, 0]⟩ [0, 0] = some 1 := by
  refine ⟨?_, by decide, by decide⟩
  intro cs position offset hoob
  simp only [Rule110.getNeighbor]
  rw [if_pos hoob]

/-- Concrete instance of the elementary boundary rule at the left edge. -/
theorem rule110_boundary_zero_witness :
    Rule110.getNeighbor ⟨[5, 1], [0, 1, 0, 1, 0]⟩ [0, 4] 1 = some 0 :=
  rule110_boundary_zero.1 ⟨[5, 1], [0, 1, 0, 1, 0]⟩ [0, 4] 1 (by decide)

lemma sand_getNeighbor_oob (cs : CellSpace) (position : List ℤ) (dy dx : ℤ)
    (hoob : position.getD 1 0 + dx < 0 ∨
      (cs.dimensionOrders.getD 0 0 : ℤ) ≤ position.getD 1 0 + dx ∨
      position.getD 0 0 + dy < 0 ∨
      (cs.dimensionOrders.getD 1 0 : ℤ) ≤ position.getD 0 0 + dy) :
    SandRule.getNeighbor cs position dy dx = some ROCK := by
  simp only [SandRule.getNeighbor]
  rw [if_pos hoob]

/-- Evaluation of SandRule.apply once all nine neighbor reads are known:
the result is the transition table of the source with the neighbor
states substituted. -/
lemma sand_apply_eval (cs : CellSpace) (position : List ℤ)
    (s u ul ur lf rt dn dl dr : ℤ)
    (hs : SandRule.getNeighbor cs position 0 0 = some s)
    (hu : SandRule.getNeighbor cs position (-1) 0 = some u)
    (hul : SandRule.getNeighbor cs position (-1) (-1) = some ul)
    (hur : SandRule.getNeighbor cs position (-1) 1 = some ur)
    (hlf : SandRule.getNeighbor cs position 0 (-1) = some lf)
    (hrt : SandRule.getNeighbor cs position 0 1 = some rt)
    (hdn : SandRule.getNeighbor cs position 1 0 = some dn)
    (hdl : SandRule.getNeighbor cs position 1 (-1) = some dl)
    (hdr : SandRule.getNeighbor cs position 1 1 = some dr) :
    SandRule.apply cs position =
      (if s = EMPTY then
        if u = SAND then some SAND
        else if ur = SAND ∧ rt ≠ EMPTY ∧ u = EMPTY then some SAND
        else if lf = COMPACTED_SAND ∧ ul = SAND ∧ dl ≠ EMPTY then some SAND
        else some EMPTY
      else if s = SAND then
        if dn = EMPTY then some EMPTY
        else if dl = EMPTY ∧ lf = EMPTY then some EMPTY
        else if dn ≠ 0 ∧ (u = SAND ∨ u = COMPACTED_SAND) then some COMPACTED_SAND
        else if dn = COMPACTED_SAND ∧ rt = EMPTY ∧ dr = EMPTY then some EMPTY
        else some SAND
      else if s = COMPACTED_SAND then
        if dn = EMPTY then some SAND
        else if dn = SAND then some SAND
        else if u = EMPTY ∨ u = ROCK then some SAND
        else some COMPACTED_SAND
      else if s = ROCK then some ROCK
      else none) := by
  simp only [SandRule.apply, hs, hu, hul, hur, hlf, hrt, hdn, hdl, hdr]
  rfl

/-- C5: for the Moore neighborhood under the sand rule, every
out-of-bounds offset resolves to the fixed boundary state ROCK, and
consequently a SAND cell on the bottom row, whose below, down-left and
down-right neighbors are all out of bounds, never becomes EMPTY in one
application of the rule. -/
theorem sand_boundary_rock :
    (∀ (cs : CellSpace) (position : List ℤ) (dy dx : ℤ),
      (position.getD 1 0 + dx < 0 ∨
        (cs.dimensionOrders.getD 0 0 : ℤ) ≤ position.getD 1 0 + dx ∨
        position.getD 0 0 + dy < 0 ∨
        (cs.dimensionOrders.getD 1 0 : ℤ) ≤ position.getD 0 0 + dy) →
      SandRule.getNeighbor cs position dy dx = some ROCK) ∧
    (∀ (cs : CellSpace) (w h : ℕ) (c : ℤ),
      cs.dimensionOrders = [w, h] → 1 ≤ h →
      (∀ dy ∈ ([-1, 0, 1] : List ℤ), ∀ dx ∈ ([-1, 0, 1] : List ℤ),
        SandRule.getNeighbor cs [(h : ℤ) - 1, c] dy dx ≠ none) →
      SandRule.getNeighbor cs [(h : ℤ) - 1, c] 0 0 = some SAND →
      SandRule.apply cs [(h : ℤ) - 1, c] ≠ some EMPTY) := by
  refine ⟨fun cs position dy dx hoob => sand_getNeighbor_oob cs position dy dx hoob, ?_⟩
  intro cs w h c hdims hh hdef hself
  have hbot : ∀ dx : ℤ, SandRule.getNeighbor cs [(h : ℤ) - 1, c] 1 dx = some ROCK := by
    intro dx
    apply sand_getNeighbor_oob
    rw [hdims]
    simp only [List.getD_cons_zero, List.getD_cons_succ]
    omega
  have hval : ∀ dy ∈ ([-1, 0, 1] : List ℤ), ∀ dx ∈ ([-1, 0, 1] : List ℤ),
      ∃ v, SandRule.getNeighbor cs [(h : ℤ) - 1, c] dy dx = some v := by
    intro dy hdy dx hdx
    cases hx : SandRule.getNeighbor cs [(h : ℤ) - 1, c] dy dx with
    | none => exact absurd hx (hdef dy hdy dx hdx)
    | some v => exact ⟨v, rfl⟩
  obtain ⟨u, hu⟩ := hval (-1) (by simp) 0 (by simp)
  obtain ⟨ul, hul⟩ := hval (-1) (by simp) (-1) (by simp)
  obtain ⟨ur, hur⟩ := hval (-1) (by simp) 1 (by simp)
  obtain ⟨lf, hlf⟩ := hval 0 (by simp) (-1) (by simp)
  obtain ⟨rt, hrt⟩ := hval 0 (by simp) 1 (by simp)
  rw [sand_apply_eval cs _ SAND u ul ur lf rt ROCK ROCK ROCK hself hu hul hur hlf hrt
    (hbot 0) (hbot (-1)) (hbot 1)]
  norm_num [EMPTY, SAND, COMPACTED_SAND, ROCK]
  split_ifs <;> simp

/-- Concrete instance of the solid boundary: the SAND cell on the bottom
row of a 1 by 2 column does not fall out of the grid. -/
theorem sand_boundary_rock_witness :
    SandRule.apply ⟨[1, 2], [0, 1]⟩ [((2 : ℕ) : ℤ) - 1, 0] ≠ some EMPTY :=
  sand_boundary_rock.2 ⟨[1, 2], [0, 1]⟩ 1 2 0 rfl (by decide) (by decide) (by decide)

/-- C6: the sand transitions are checked in source order with the first
matching condition winning: a SAND cell whose below neighbor reads EMPTY
becomes EMPTY by the first SAND condition, an EMPTY cell whose
directly-above neighbor reads SAND becomes SAND by the first EMPTY
condition, and one generation on the one-wide, two-tall column SAND over
EMPTY produces the column EMPTY over SAND. -/
theorem sand_first_condition_order :
    (∀ (cs : CellSpace) (position : List ℤ),
      (∀ dy ∈ ([-1, 0, 1] : List ℤ), ∀ dx ∈ ([-1, 0, 1] : List ℤ),
        SandRule.getNeighbor cs position dy dx ≠ none) →
      SandRule.getNeighbor cs position 0 0 = some SAND →
      SandRule.getNeighbor cs position 1 0 = some EMPTY →
      SandRule.apply cs position = some EMPTY) ∧
    (∀ (cs : CellSpace) (position : List ℤ),
      (∀ dy ∈ ([-1, 0, 1] : List ℤ), ∀ dx ∈ ([-1, 0, 1] : List ℤ),
        SandRule.getNeighbor cs position dy dx ≠ none) →
      SandRule.getNeighbor cs position 0 0 = some EMPTY →
      SandRule.getNeighbor cs position (-1) 0 = some SAND →
      SandRule.apply cs position = some SAND) ∧
    ((CA.iterate ⟨⟨[1, 2], [SAND, EMPTY]⟩, .sand, .moore, ∅⟩).map
      (fun d => d.cellSpace.cells) = some [EMPTY, SAND]) := by
  have hval : ∀ (cs : CellSpace) (position : List ℤ),
      (∀ dy ∈ ([-1, 0, 1] : List ℤ), ∀ dx ∈ ([-1, 0, 1] : List ℤ),
        SandRule.getNeighbor cs position dy dx ≠ none) →
      ∀ dy ∈ ([-1, 0, 1] : List ℤ), ∀ dx ∈ ([-1, 0, 1] : List ℤ),
      ∃ v, SandRule.getNeighbor cs position dy dx = some v := by
    intro cs position hdef dy hdy dx hdx
    cases hx : SandRule.getNeighbor cs position dy dx with
    | none => exact absurd hx (hdef dy hdy dx hdx)
    | some v => exact ⟨v, rfl⟩
  refine ⟨?_, ?_, by decide⟩
  · intro cs position hdef hself hdn
    obtain ⟨u, hu⟩ := hval cs position hdef (-1) (by simp) 0 (by simp)
    obtain ⟨ul, hul⟩ := hval cs position hdef (-1) (by simp) (-1) (by simp)
    obtain ⟨ur, hur⟩ := hval cs position hdef (-1) (by simp) 1 (by simp)
    obtain ⟨lf, hlf⟩ := hval cs position hdef 0 (by simp) (-1) (by simp)
    obtain ⟨rt, hrt⟩ := hval cs position hdef 0 (by simp) 1 (by simp)
    obtain ⟨dl, hdl⟩ := hval cs position hdef 1 (by simp) (-1) (by simp)
    obtain ⟨dr, hdr⟩ := hval cs position hdef 1 (by simp) 1 (by simp)
    rw [sand_apply_eval cs position SAND u ul ur lf rt EMPTY dl dr hself hu hul hur
      hlf hrt hdn hdl hdr]
    norm_num [EMPTY, SAND]
  · intro cs position hdef hself hu
    obtain ⟨ul, hul⟩ := hval cs position hdef (-1) (by simp) (-1) (by simp)
    obtain ⟨ur, hur⟩ := hval cs position hdef (-1) (by simp) 1 (by simp)
    obtain ⟨lf, hlf⟩ := hval cs position hdef 0 (by simp) (-1) (by simp)
    obtain ⟨rt, hrt⟩ := hval cs position hdef 0 (by simp) 1 (by simp)
    obtain ⟨dn, hdn⟩ := hval cs position hdef 1 (by simp) 0 (by simp)
    obtain ⟨dl, hdl⟩ := hval cs position hdef 1 (by simp) (-1) (by simp)
    obtain ⟨dr, hdr⟩ := hval cs position hdef 1 (by simp) 1 (by simp)
    rw [sand_apply_eval cs position EMPTY SAND ul ur lf rt dn dl dr hself hu hul hur
      hlf hrt hdn hdl hdr]
    norm_num [EMPTY, SAND]

/-- Concrete instance of the first-condition order: the SAND cell above
an EMPTY cell becomes EMPTY. -/
theorem sand_first_condition_order_witness :
    SandRule.apply ⟨[1, 2], [1, 0]⟩ [0, 0] = some EMPTY :=
  sand_first_condition_order.1 ⟨[1, 2], [1, 0]⟩ [0, 0] (by decide) (by decide)
    (by decide)

/-- The state set of the sand rule, as enumerated by its
getAvailableStates method. -/
def SandStateSet (s : ℤ) : Prop :=
  s = ROCK ∨ s = EMPTY ∨ s = SAND ∨ s = COMPACTED_SAND

instance : DecidablePred SandStateSet := fun s => by
  unfold SandStateSet
  infer_instance

lemma getD_mem_of_lt (l : List ℤ) (i : ℕ) (hi : i < l.length) : l.getD i 0 ∈ l := by
  rw [List.getD_eq_getElem l 0 hi]
  exact List.getElem_mem hi

lemma getIndexD_pair (w h : ℕ) (a b : ℤ) : getIndexD [w, h] [a, b] = a * w + b := by
  have hio : indexOrdersOf [w, h] = [1, w] := by
    simp [indexOrdersOf, List.range_succ]
  simp [getIndexD, hio, Finset.sum_range_succ]

lemma sand_getNeighbor_closed (cs : CellSpace) (w h : ℕ)
    (hdims : cs.dimensionOrders = [w, h])
    (hlen : cs.cells.length = w * h)
    (hstates : ∀ s ∈ cs.cells, SandStateSet s)
    (position : List ℤ) (dy dx : ℤ) :
    ∃ v, SandRule.getNeighbor cs position dy dx = some v ∧ SandStateSet v := by
  by_cases hoob : position.getD 1 0 + dx < 0 ∨
      (cs.dimensionOrders.getD 0 0 : ℤ) ≤ position.getD 1 0 + dx ∨
      position.getD 0 0 + dy < 0 ∨
      (cs.dimensionOrders.getD 1 0 : ℤ) ≤ position.getD 0 0 + dy
  · exact ⟨ROCK, sand_getNeighbor_oob cs position dy dx hoob, Or.inl rfl⟩
  · have hb := hoob
    push_neg at hb
    obtain ⟨h1, h2, h3, h4⟩ := hb
    rw [hdims] at h2 h4
    simp only [List.getD_cons_zero, List.getD_cons_succ] at h2 h4
    set nx := position.getD 1 0 + dx with hnx
    set ny := position.getD 0 0 + dy with hny
    have hneigh : SandRule.getNeighbor cs position dy dx =
        cs.getCellAtIndex (cs.getIndex [ny, nx]) := by
      simp only [SandRule.getNeighbor]
      rw [if_neg hoob]
    have hidx : cs.getIndex [ny, nx] = ny * w + nx := by
      rw [CellSpace.getIndex, hdims, getIndexD_pair]
    have hwnn : (0 : ℤ) ≤ (w : ℤ) := by positivity
    have hnn : 0 ≤ ny * w + nx := by
      have := mul_nonneg h3 hwnn
      linarith
    have hlt : ny * w + nx < ((w * h : ℕ) : ℤ) := by
      have e1 : ny + 1 ≤ (h : ℤ) := by omega
      have e2 : (ny + 1) * (w : ℤ) ≤ (h : ℤ) * w := mul_le_mul_of_nonneg_right e1 hwnn
      push_cast
      nlinarith [e2, h2]
    have hcell : cs.getCellAtIndex (ny * w + nx) =
        some (cs.cells.getD (ny * w + nx).toNat 0) := by
      rw [CellSpace.getCellAtIndex, if_neg]
      push_neg
      rw [hlen]
      exact ⟨hnn, hlt⟩
    refine ⟨cs.cells.getD (ny * w + nx).toNat 0, ?_, ?_⟩
    · rw [hneigh, hidx, hcell]
    · apply hstates
      apply getD_mem_of_lt
      rw [hlen]
      zify
      rw [Int.toNat_of_nonneg hnn]
      exact_mod_cast hlt

lemma sand_table_closed (s u ul ur lf rt dn dl dr : ℤ) (hsS : SandStateSet s) :
    ∃ v,
      (if s = EMPTY then
        if u = SAND then some SAND
        else if ur = SAND ∧ rt ≠ EMPTY ∧ u = EMPTY then some SAND
        else if lf = COMPACTED_SAND ∧ ul = SAND ∧ dl ≠ EMPTY then some SAND
        else some EMPTY
      else if s = SAND then
        if dn = EMPTY then some EMPTY
        else if dl = EMPTY ∧ lf = EMPTY then some EMPTY
        else if dn ≠ 0 ∧ (u = SAND ∨ u = COMPACTED_SAND) then some COMPACTED_SAND
        else if dn = COMPACTED_SAND ∧ rt = EMPTY ∧ dr = EMPTY then some EMPTY
        else some SAND
      else if s = COMPACTED_SAND then
        if dn = EMPTY then some SAND
        else if dn = SAND then some SAND
        else if u = EMPTY ∨ u = ROCK then some SAND
        else some COMPACTED_SAND
      else if s = ROCK then some ROCK
      else none) = some v ∧ SandStateSet v := by
  rcases hsS with rfl | rfl | rfl | rfl <;>
    norm_num [EMPTY, SAND, COMPACTED_SAND, ROCK, SandStateSet] <;>
    split_ifs <;>
    simp

lemma sand_apply_closed (cs : CellSpace) (w h : ℕ)
    (hdims : cs.dimensionOrders = [w, h])
    (hlen : cs.cells.length = w * h)
    (hstates : ∀ s ∈ cs.cells, SandStateSet s)
    (position : List ℤ) :
    ∃ v, SandRule.apply cs position = some v ∧ SandStateSet v := by
  obtain ⟨s, hs, hsS⟩ := sand_getNeighbor_closed cs w h hdims hlen hstates position 0 0
  obtain ⟨u, hu, _⟩ := sand_getNeighbor_closed cs w h hdims hlen hstates position (-1) 0
  obtain ⟨ul, hul, _⟩ := sand_getNeighbor_closed cs w h hdims hlen hstates position (-1) (-1)
  obtain ⟨ur, hur, _⟩ := sand_getNeighbor_closed cs w h hdims hlen hstates position (-1) 1
  obtain ⟨lf, hlf, _⟩ := sand_getNeighbor_closed cs w h hdims hlen hstates position 0 (-1)
  obtain ⟨rt, hrt, _⟩ := sand_getNeighbor_closed cs w h hdims hlen hstates position 0 1
  obtain ⟨dn, hdn, _⟩ := sand_getNeighbor_closed cs w h hdims hlen hstates position 1 0
  obtain ⟨dl, hdl, _⟩ := sand_getNeighbor_closed cs w h hdims hlen hstates position 1 (-1)
  obtain ⟨dr, hdr, _⟩ := sand_getNeighbor_closed cs w h hdims hlen hstates position 1 1
  rw [sand_apply_eval cs position s u ul ur lf rt dn dl dr hs hu hul hur hlf hrt hdn
    hdl hdr]
  exact sand_table_closed s u ul ur lf rt dn dl dr hsS

/-- C10: the sand rule is closed over its state set: on a grid whose
states all lie in ROCK, EMPTY, SAND, COMPACTED_SAND, every application
of SandRule.apply is defined and returns a state of that set (boundary
substitution contributes only ROCK), and one full generation under the
sand rule again leaves every stored cell state inside the set. -/
theorem sand_state_closure (ca : CA) (w h : ℕ)
    (hrule : ca.currentRule = .sand)
    (hdims : ca.cellSpace.dimensionOrders = [w, h])
    (hlen : ca.cellSpace.cells.length = w * h)
    (hstates : ∀ s ∈ ca.cellSpace.cells, SandStateSet s) :
    (∀ position, ∃ v, SandRule.apply ca.cellSpace position = some v ∧ SandStateSet v) ∧
    (∃ ca', ca.iterate = some ca' ∧ ∀ s ∈ ca'.cellSpace.cells, SandStateSet s) := by
  have happly := sand_apply_closed ca.cellSpace w h hdims hlen hstates
  refine ⟨happly, ?_⟩
  have hns : ∀ i : ℕ, ∃ v, ca.getNextState i = some v ∧ SandStateSet v := by
    intro i
    rw [CA.getNextState, hrule]
    exact happly _
  have hall : ∀ x ∈ (List.range ca.cellSpace.cells.length).map ca.getNextState,
      x ≠ none := by
    intro x hx
    rw [List.mem_map] at hx
    obtain ⟨i, _, rfl⟩ := hx
    obtain ⟨v, hv, _⟩ := hns i
    simp [hv]
  obtain ⟨next, hnext⟩ := optList_of_all_some hall
  refine ⟨{ ca with
      cellSpace := { ca.cellSpace with
        cells := (List.range ca.cellSpace.cells.length).map
          (fun j => if ca.cellSpace.cells.getD j 0 ≠ next.getD j 0 then next.getD j 0
            else ca.cellSpace.cells.getD j 0) },
      dirtyRects := ca.dirtyRects ∪ (Finset.range ca.cellSpace.cells.length).filter
        (fun j => ca.cellSpace.cells.getD j 0 ≠ next.getD j 0) }, ?_, ?_⟩
  · simp only [CA.iterate]
    rw [hnext]
  · intro s hs
    simp only [List.mem_map] at hs
    obtain ⟨i, hi, rfl⟩ := hs
    rw [List.mem_range] at hi
    obtain ⟨hlen2, hpt⟩ := range_map_eq_map_some (optList_eq_map_some hnext)
    obtain ⟨v, hv, hvS⟩ := hns i
    have hveq : next.getD i 0 = v := by
      have hx := hpt i hi
      rw [hv] at hx
      exact (Option.some.inj hx).symm
    by_cases hc : ca.cellSpace.cells.getD i 0 ≠ next.getD i 0
    · rw [if_pos hc, hveq]
      exact hvS
    · rw [if_neg hc]
      exact hstates _ (getD_mem_of_lt _ i hi)

/-- Concrete instance of the closure: the sand rule on the 1 by 2 column
returns a state of the sand state set. -/
theorem sand_state_closure_witness :
    ∃ v, SandRule.apply ⟨[1, 2], [1, 0]⟩ [0, 0] = some v ∧ SandStateSet v :=
  (sand_state_closure ⟨⟨[1, 2], [1, 0]⟩, .sand, .moore, ∅⟩ 1 2 rfl rfl (by decide)
    (by decide)).1 [0, 0]

end GenPlay
